import Mathlib

/-!
Verification of the libMesh finite-element assembly engine headers
(`fem_system.h` 0.6.1, `boundary_info.h` 0.4.2, `error_vector.h` 0.5.0-rc2).

Scalars are modelled by `ℚ` (exact arithmetic), coefficient vectors by
`List ℚ`, and dense local matrices by `List (List ℚ)` in column-major
layout (a matrix is its list of columns, matching the per-degree-of-freedom
column construction of the numeric Jacobian).
-/

/-- Entrywise sum of two coefficient vectors. -/
def vecAdd (u v : List ℚ) : List ℚ := List.zipWith (fun a b => a + b) u v

/-- Entrywise difference of two coefficient vectors. -/
def vecSub (u v : List ℚ) : List ℚ := List.zipWith (fun a b => a - b) u v

/-- Scalar multiple of a coefficient vector. -/
def vecScale (a : ℚ) (u : List ℚ) : List ℚ := u.map (fun x => a * x)

/-- The standard basis vector of length `n` with a one in entry `i`. -/
def unitVec (n i : ℕ) : List ℚ := (List.range n).map (fun j => if j = i then 1 else 0)

/-- Bump the single local solution coefficient `i` of `u` by the step `h`,
leaving every other coefficient unchanged. -/
def perturbCoeff (u : List ℚ) (i : ℕ) (h : ℚ) : List ℚ :=
  u.mapIdx (fun j x => if j = i then x + h else x)

/-- Modelled from the spec: the body of `FEMSystem::numerical_elem_jacobian` is
not under `src/` (only its declaration in `fem_system.h` is).  Per the spec, for
each local degree of freedom `i` it perturbs the local solution coefficient by
the configurable step `numerical_jacobian_h`, recomputes the local residual
through the same callback path `R` used for the unperturbed state, and stores
the forward-difference column; the resulting matrix is the list of these
columns (column-major). -/
def numerical_elem_jacobian (R : List ℚ → List ℚ) (numerical_jacobian_h : ℚ)
    (u : List ℚ) : List (List ℚ) :=
  (List.range u.length).map (fun i =>
    vecScale numerical_jacobian_h⁻¹
      (vecSub (R (perturbCoeff u i numerical_jacobian_h)) (R u)))

/-- Modelled from the spec: the default value of the member
`FEMSystem::numerical_jacobian_h`, "a small positive default". -/
def numerical_jacobian_h_default : ℚ := 1 / 1000000

/-- Entry `(r, i)` (row `r`, column `i`) of a column-major matrix. -/
def matGet (m : List (List ℚ)) (r i : ℕ) : ℚ := (m.getD i []).getD r 0

theorem perturbCoeff_eq_vecAdd (u : List ℚ) (i : ℕ) (h : ℚ) :
    perturbCoeff u i h = vecAdd u (vecScale h (unitVec u.length i)) := by
  apply List.ext_getElem
  · simp [perturbCoeff, vecAdd, vecScale, unitVec]
  · intro j h1 h2
    simp only [perturbCoeff, vecAdd, vecScale, unitVec, List.getElem_mapIdx,
      List.getElem_zipWith, List.getElem_map, List.getElem_range]
    by_cases hj : j = i
    · simp [hj]
    · simp [hj]

/-- C1: for every element and every local degree of freedom `i` (with a
residual callback producing vectors of a uniform length `m`), column `i` of
the finite-difference local Jacobian built by `numerical_elem_jacobian` is
exactly the forward-difference column `(R(u + h*e_i) - R(u)) / h`, both as a
whole column and entrywise, and the configurable step has a small positive
default. -/
theorem C1_forward_difference_jacobian
    (R : List ℚ → List ℚ) (h : ℚ) (u : List ℚ) (m i r : ℕ)
    (hlen : ∀ v, (R v).length = m) (hi : i < u.length) (hr : r < m) :
    (numerical_elem_jacobian R h u).getD i []
      = vecScale h⁻¹ (vecSub (R (vecAdd u (vecScale h (unitVec u.length i)))) (R u))
    ∧ matGet (numerical_elem_jacobian R h u) r i
      = ((R (vecAdd u (vecScale h (unitVec u.length i)))).getD r 0 - (R u).getD r 0) / h
    ∧ 0 < numerical_jacobian_h_default := by
  have hi1 : i < ((List.range u.length).map (fun j =>
      vecScale h⁻¹ (vecSub (R (perturbCoeff u j h)) (R u)))).length := by simpa using hi
  have hcol : (numerical_elem_jacobian R h u).getD i []
      = vecScale h⁻¹ (vecSub (R (vecAdd u (vecScale h (unitVec u.length i)))) (R u)) := by
    unfold numerical_elem_jacobian
    rw [List.getD_eq_getElem _ _ hi1]
    simp [perturbCoeff_eq_vecAdd]
  refine ⟨hcol, ?_, by norm_num [numerical_jacobian_h_default]⟩
  have ha : (R (vecAdd u (vecScale h (unitVec u.length i)))).length = m := hlen _
  have hb : (R u).length = m := hlen _
  have hr1 : r < (vecScale h⁻¹
      (vecSub (R (vecAdd u (vecScale h (unitVec u.length i)))) (R u))).length := by
    simp only [vecScale, vecSub, List.length_map, List.length_zipWith, hlen]
    simpa using hr
  unfold matGet
  rw [hcol, List.getD_eq_getElem _ _ hr1,
    List.getD_eq_getElem _ _ (by rw [ha]; exact hr),
    List.getD_eq_getElem _ _ (by rw [hb]; exact hr)]
  simp only [vecScale, vecSub, List.getElem_map, List.getElem_zipWith]
  rw [div_eq_mul_inv, mul_comm]

/-- Concrete instantiation of C1 at the residual `R(v) = (v0^2, v1)` on a
two-dof element with `h = 1/2`, `u = (1, 2)`, checking column 0. -/
theorem C1_forward_difference_jacobian_witness :
    (numerical_elem_jacobian (fun v => [(v.getD 0 0) ^ 2, v.getD 1 0]) (1/2) [1, 2]).getD 0 []
      = vecScale (1/2 : ℚ)⁻¹
          (vecSub ((fun v => [(v.getD 0 0) ^ 2, v.getD 1 0])
              (vecAdd [1, 2] (vecScale (1/2) (unitVec ([1, 2] : List ℚ).length 0))))
            ((fun v => [(v.getD 0 0) ^ 2, v.getD 1 0]) [1, 2]))
    ∧ matGet (numerical_elem_jacobian (fun v => [(v.getD 0 0) ^ 2, v.getD 1 0]) (1/2) [1, 2]) 0 0
      = (((fun v => [(v.getD 0 0) ^ 2, v.getD 1 0])
            (vecAdd [1, 2] (vecScale (1/2) (unitVec ([1, 2] : List ℚ).length 0)))).getD 0 0
          - (((fun v => [(v.getD 0 0) ^ 2, v.getD 1 0]) [1, 2]).getD 0 0)) / (1/2)
    ∧ 0 < numerical_jacobian_h_default :=
  C1_forward_difference_jacobian (fun v => [(v.getD 0 0) ^ 2, v.getD 1 0]) (1/2) [1, 2] 2 0 0
    (fun v => by simp) (by decide) (by decide)

/-- Entrywise difference of two column-major matrices. -/
def matSub (A B : List (List ℚ)) : List (List ℚ) := List.zipWith vecSub A B

/-- Matrix l1 norm (induced 1-norm): the maximum over the columns of the sum
of the absolute values of the column's entries. -/
def matL1Norm (A : List (List ℚ)) : ℚ :=
  (A.map (fun c => (c.map (fun x => |x|)).sum)).foldl max 0

/-- Modelled from the spec: the verification mode driven by the member
`FEMSystem::verify_analytic_jacobians`, whose implementation is not under
`src/`.  Per the header doc: if the member is zero no numeric Jacobian is
computed and the supplied analytic element Jacobian is used as is; if it is a
positive value `tol`, a numeric Jacobian is computed on the same element
through the residual callback `R` and the program aborts (error result,
carrying the discrepancy) exactly when the relative error in matrix l1 norms
exceeds `tol`. -/
def jacobian_verification (verify_analytic_jacobians : ℚ) (R : List ℚ → List ℚ)
    (h : ℚ) (u : List ℚ) (analytic : List (List ℚ)) : Except ℚ (List (List ℚ)) :=
  if 0 < verify_analytic_jacobians then
    let relative_error :=
      matL1Norm (matSub analytic (numerical_elem_jacobian R h u)) / matL1Norm analytic
    if verify_analytic_jacobians < relative_error then Except.error relative_error
    else Except.ok analytic
  else Except.ok analytic

/-- C2: with a positive verification tolerance, the element assembly computes
a numeric Jacobian alongside the supplied analytic one and aborts exactly when
the relative l1-norm discrepancy exceeds the tolerance; with the zero default
it succeeds with the analytic Jacobian unmodified, whatever that Jacobian is. -/
theorem C2_verify_analytic_jacobians
    (tol : ℚ) (R : List ℚ → List ℚ) (h : ℚ) (u : List ℚ) (analytic : List (List ℚ)) :
    (tol = 0 → jacobian_verification tol R h u analytic = Except.ok analytic)
    ∧ (0 < tol →
        ((∃ e, jacobian_verification tol R h u analytic = Except.error e)
          ↔ tol < matL1Norm (matSub analytic (numerical_elem_jacobian R h u))
                    / matL1Norm analytic))
    ∧ (0 < tol →
        ¬ tol < matL1Norm (matSub analytic (numerical_elem_jacobian R h u))
                  / matL1Norm analytic →
        jacobian_verification tol R h u analytic = Except.ok analytic) := by
  refine ⟨?_, ?_, ?_⟩
  · intro h0
    simp [jacobian_verification, h0]
  · intro hpos
    unfold jacobian_verification
    rw [if_pos hpos]
    by_cases hgt : tol < matL1Norm (matSub analytic (numerical_elem_jacobian R h u))
        / matL1Norm analytic
    · simp [hgt]
    · simp [hgt]
  · intro hpos hle
    unfold jacobian_verification
    rw [if_pos hpos]
    simp [hle]

/-- Concrete instantiation of C2: a deliberately wrong analytic Jacobian for
the residual `R(v) = (2 v0)` on a one-dof element is rejected at tolerance
1/10 and accepted unmodified at the zero default tolerance. -/
theorem C2_verify_analytic_jacobians_witness :
    jacobian_verification 0 (fun v => [2 * v.getD 0 0]) 1 [1] [[5]] = Except.ok [[5]]
    ∧ (∃ e, jacobian_verification (1/10) (fun v => [2 * v.getD 0 0]) 1 [1] [[5]]
        = Except.error e) :=
  ⟨(C2_verify_analytic_jacobians 0 (fun v => [2 * v.getD 0 0]) 1 [1] [[5]]).1 rfl,
   ((C2_verify_analytic_jacobians (1/10) (fun v => [2 * v.getD 0 0]) 1 [1] [[5]]).2.1
      (by norm_num)).2 (by
        simp [matL1Norm, matSub, vecSub, vecScale, numerical_elem_jacobian, perturbCoeff,
          List.range_succ]
        norm_num)⟩

/-- A system variable's interpolation data: the polynomial order of its base
FEType and its local p-refinement level. -/
structure FEVar where
  base_order : ℕ
  p_level : ℕ
deriving DecidableEq

/-- Combined polynomial order of a variable: the sum of the base FEType order
and the local p refinement level. -/
def combined_order (v : FEVar) : ℕ := v.base_order + v.p_level

/-- Highest combined polynomial order among the system's variables. -/
def max_combined_order (vars : List FEVar) : ℕ :=
  (vars.map combined_order).foldl max 0

/-- Modelled from the spec: the quadrature order the FEMSystem requests from
FEType::default_quadrature_rule (the selection code is not under `src/`): the
rule integrates elements of order up to `2*p+1` exactly, where `p` is the
highest combined base-plus-refinement order, and the configurable
`extra_quadrature_order` (possibly negative) is added. -/
def selected_quadrature_order (vars : List FEVar) (extra_quadrature_order : ℤ) : ℤ :=
  2 * (max_combined_order vars : ℤ) + 1 + extra_quadrature_order

/-- The pair of quadrature rules held by the element context, identified by
the polynomial degree each rule integrates exactly. -/
structure QRules where
  element_qrule : ℤ
  side_qrule : ℤ
deriving DecidableEq

/-- Modelled from the spec: the per-element-visit reinitialization of the
quadrature rules (the loop body is not under `src/`).  It re-derives one
interior and one side rule from the variables and the offset alone, ignoring
whatever rules the previous element visit left behind. -/
def reinit_element_qrules (_prev : QRules) (vars : List FEVar) (extra : ℤ) : QRules :=
  QRules.mk (selected_quadrature_order vars extra) (selected_quadrature_order vars extra)

theorem init_le_foldl_max (l : List ℕ) (a : ℕ) : a ≤ l.foldl max a := by
  induction l generalizing a with
  | nil => exact le_refl a
  | cons b l ih => exact le_trans (le_max_left a b) (ih (max a b))

theorem mem_le_foldl_max (l : List ℕ) (a x : ℕ) (hx : x ∈ l) : x ≤ l.foldl max a := by
  induction l generalizing a with
  | nil => cases hx
  | cons b l ih =>
    rw [List.foldl_cons]
    rcases List.mem_cons.1 hx with hb | hl
    · subst hb
      exact le_trans (le_max_right a x) (init_le_foldl_max l (max a x))
    · exact ih (max a b) hl

/-- C3: on every element visit the re-derived interior and side rules both
have exactly the order `2p+1` shifted by `extra_quadrature_order`, where `p`
is the highest combined order; that order is sufficient for every registered
variable, and the selection is deterministic — independent of the rules left
by any previous visit. -/
theorem C3_quadrature_selection
    (vars : List FEVar) (extra : ℤ) (prev prev2 : QRules) (v : FEVar) (hv : v ∈ vars) :
    (reinit_element_qrules prev vars extra).element_qrule
      = 2 * (max_combined_order vars : ℤ) + 1 + extra
    ∧ (reinit_element_qrules prev vars extra).side_qrule
      = 2 * (max_combined_order vars : ℤ) + 1 + extra
    ∧ 2 * (combined_order v : ℤ) + 1 + extra
      ≤ (reinit_element_qrules prev vars extra).element_qrule
    ∧ 2 * (combined_order v : ℤ) + 1 + extra
      ≤ (reinit_element_qrules prev vars extra).side_qrule
    ∧ reinit_element_qrules prev vars extra = reinit_element_qrules prev2 vars extra := by
  have hle : combined_order v ≤ max_combined_order vars :=
    mem_le_foldl_max (vars.map combined_order) 0 (combined_order v)
      (List.mem_map_of_mem combined_order hv)
  have hle2 : 2 * (combined_order v : ℤ) + 1 + extra
      ≤ 2 * (max_combined_order vars : ℤ) + 1 + extra := by
    have : (combined_order v : ℤ) ≤ (max_combined_order vars : ℤ) := by exact_mod_cast hle
    linarith
  exact ⟨rfl, rfl, hle2, hle2, rfl⟩

/-- Concrete instantiation of C3: two variables of combined orders 3 and 1
with offset -1, checked for the order-3 variable from two distinct previous
rule states. -/
theorem C3_quadrature_selection_witness :
    (reinit_element_qrules (QRules.mk 0 0) [FEVar.mk 2 1, FEVar.mk 1 0] (-1)).element_qrule
      = 2 * (max_combined_order [FEVar.mk 2 1, FEVar.mk 1 0] : ℤ) + 1 + (-1)
    ∧ (reinit_element_qrules (QRules.mk 0 0) [FEVar.mk 2 1, FEVar.mk 1 0] (-1)).side_qrule
      = 2 * (max_combined_order [FEVar.mk 2 1, FEVar.mk 1 0] : ℤ) + 1 + (-1)
    ∧ 2 * (combined_order (FEVar.mk 2 1) : ℤ) + 1 + (-1)
      ≤ (reinit_element_qrules (QRules.mk 0 0) [FEVar.mk 2 1, FEVar.mk 1 0] (-1)).element_qrule
    ∧ 2 * (combined_order (FEVar.mk 2 1) : ℤ) + 1 + (-1)
      ≤ (reinit_element_qrules (QRules.mk 0 0) [FEVar.mk 2 1, FEVar.mk 1 0] (-1)).side_qrule
    ∧ reinit_element_qrules (QRules.mk 0 0) [FEVar.mk 2 1, FEVar.mk 1 0] (-1)
      = reinit_element_qrules (QRules.mk 7 5) [FEVar.mk 2 1, FEVar.mk 1 0] (-1) :=
  C3_quadrature_selection [FEVar.mk 2 1, FEVar.mk 1 0] (-1) (QRules.mk 0 0) (QRules.mk 7 5)
    (FEVar.mk 2 1) (by decide)

/-- Element-local dense buffers: the local residual and the local Jacobian
(column-major), zeroed at the start of each element. -/
structure LocalBuffers where
  elem_residual : List ℚ
  elem_jacobian : List (List ℚ)

/-- A physics callback (element_time_derivative, element_constraint,
side_time_derivative, side_constraint or mass_residual): it receives the
boolean Jacobian-request flag, may add into the local buffers, and reports
through its boolean result whether it actually produced the element
Jacobian. -/
def PhysicsCallback : Type := Bool → LocalBuffers → LocalBuffers × Bool

/-- Modelled from the spec: the Assembly Orchestrator's callback sequence on
one element (the loop body is not under `src/`).  Each callback is invoked
with the Jacobian-request flag, and the reported flags are combined
conjunctively: the element Jacobian counts as analytically computed only if
every callback produced its share. -/
def run_callbacks (cbs : List PhysicsCallback) (request_jacobian : Bool)
    (s : LocalBuffers) : LocalBuffers × Bool :=
  cbs.foldl (fun acc cb =>
    let r := cb request_jacobian acc.1
    (r.1, acc.2 && r.2)) (s, true)

/-- Modelled from the spec: after the callbacks ran, if a Jacobian was
requested but some callback could not produce its analytic share, the
Orchestrator computes the element's Jacobian contribution by numeric
differentiation instead. -/
def assemble_element (cbs : List PhysicsCallback) (request_jacobian : Bool)
    (R : List ℚ → List ℚ) (h : ℚ) (u : List ℚ) (s : LocalBuffers) : LocalBuffers :=
  let r := run_callbacks cbs request_jacobian s
  if request_jacobian && !r.2 then
    LocalBuffers.mk r.1.elem_residual (numerical_elem_jacobian R h u)
  else r.1

theorem callbacks_foldl_from_false (cbs : List PhysicsCallback) (req : Bool)
    (s : LocalBuffers) :
    (cbs.foldl (fun acc cb =>
      let r := cb req acc.1
      (r.1, acc.2 && r.2)) (s, false)).2 = false := by
  induction cbs generalizing s with
  | nil => rfl
  | cons cb cbs ih =>
    rw [List.foldl_cons]
    simpa using ih (cb req s).1

/-- C4: the callback contract is boolean-in (request flag), boolean-out
(whether a Jacobian was produced); if some callback in the sequence reports
that it did not produce the Jacobian while one was requested, the aggregate
flag is false and the assembled element Jacobian is the numeric
finite-difference one. -/
theorem C4_numeric_jacobian_fallback
    (cbs1 cbs2 : List PhysicsCallback) (cb : PhysicsCallback)
    (R : List ℚ → List ℚ) (h : ℚ) (u : List ℚ) (s : LocalBuffers)
    (hcb : ∀ t, (cb true t).2 = false) :
    (run_callbacks (cbs1 ++ cb :: cbs2) true s).2 = false
    ∧ (assemble_element (cbs1 ++ cb :: cbs2) true R h u s).elem_jacobian
        = numerical_elem_jacobian R h u
    ∧ ∀ (cbs : List PhysicsCallback) (t : LocalBuffers),
        (run_callbacks cbs true t).2 = false →
        (assemble_element cbs true R h u t).elem_jacobian = numerical_elem_jacobian R h u := by
  have hgen : ∀ (cbs : List PhysicsCallback) (t : LocalBuffers),
      (run_callbacks cbs true t).2 = false →
      (assemble_element cbs true R h u t).elem_jacobian = numerical_elem_jacobian R h u := by
    intro cbs t hflag
    simp [assemble_element, hflag]
  have hflag : (run_callbacks (cbs1 ++ cb :: cbs2) true s).2 = false := by
    unfold run_callbacks
    rw [List.foldl_append, List.foldl_cons]
    simp only [hcb, Bool.and_false]
    exact callbacks_foldl_from_false cbs2 true _
  exact ⟨hflag, hgen _ s hflag, hgen⟩

/-- Concrete instantiation of C4: a single callback that adds nothing and
reports that it produced no Jacobian, on a one-dof element with residual
`R(v) = (3 v0)` and step 1. -/
theorem C4_numeric_jacobian_fallback_witness :
    (run_callbacks ([] ++ (fun _ t => (t, false)) :: []) true (LocalBuffers.mk [0] [[0]])).2
      = false
    ∧ (assemble_element ([] ++ (fun _ t => (t, false)) :: []) true
          (fun v => [3 * v.getD 0 0]) 1 [1] (LocalBuffers.mk [0] [[0]])).elem_jacobian
        = numerical_elem_jacobian (fun v => [3 * v.getD 0 0]) 1 [1]
    ∧ ∀ (cbs : List PhysicsCallback) (t : LocalBuffers),
        (run_callbacks cbs true t).2 = false →
        (assemble_element cbs true (fun v => [3 * v.getD 0 0]) 1 [1] t).elem_jacobian
          = numerical_elem_jacobian (fun v => [3 * v.getD 0 0]) 1 [1] :=
  C4_numeric_jacobian_fallback [] [] (fun _ t => (t, false))
    (fun v => [3 * v.getD 0 0]) 1 [1] (LocalBuffers.mk [0] [[0]]) (fun _ => rfl)

/-- Discrete inner product of two quadrature-point functions with respect to
the quadrature weights `w` (the JxW products): the quadrature approximation of
the element integral of `f * g`. -/
def qp_inner (nqp : ℕ) (w f g : ℕ → ℚ) : ℚ :=
  ((List.range nqp).map (fun qp => w qp * f qp * g qp)).sum

/-- One quadrature-point step of the default mass residual: add
`w(qp) * u(qp) * phi_i(qp)` into residual entry `i` and, when the Jacobian was
requested, `w(qp) * phi_i(qp) * phi_j(qp)` into Jacobian entry `(i, j)`. -/
def mass_step (ndofs : ℕ) (w : ℕ → ℚ) (phi : ℕ → ℕ → ℚ) (u : ℕ → ℚ)
    (request_jacobian : Bool) (st : (ℕ → ℚ) × (ℕ → ℕ → ℚ)) (qp : ℕ) :
    (ℕ → ℚ) × (ℕ → ℕ → ℚ) :=
  (fun i => if i < ndofs then st.1 i + w qp * u qp * phi i qp else st.1 i,
   if request_jacobian then
     fun i j =>
       if i < ndofs ∧ j < ndofs then st.2 i j + w qp * phi i qp * phi j qp else st.2 i j
   else st.2)

/-- Modelled from the spec: the engine-supplied default implementation of
`FEMSystem::mass_residual` (its body is not under `src/`; the header doc says
it "calculates the residual (u, phi_i) and jacobian (phi_i, phi_j)").  It
loops over the quadrature points of the current element accumulating into the
residual and (when requested) Jacobian buffers, and reports
`request_jacobian` back: it computed the Jacobian exactly when one was
requested. -/
def mass_residual_default (nqp ndofs : ℕ) (w : ℕ → ℚ) (phi : ℕ → ℕ → ℚ) (u : ℕ → ℚ)
    (request_jacobian : Bool) (res : ℕ → ℚ) (jac : ℕ → ℕ → ℚ) :
    ((ℕ → ℚ) × (ℕ → ℕ → ℚ)) × Bool :=
  ((List.range nqp).foldl (mass_step ndofs w phi u request_jacobian) (res, jac),
   request_jacobian)

theorem mass_loop_res (ndofs : ℕ) (w : ℕ → ℚ) (phi : ℕ → ℕ → ℚ) (u : ℕ → ℚ)
    (rq : Bool) (l : List ℕ) (res : ℕ → ℚ) (jac : ℕ → ℕ → ℚ) (i : ℕ) (hi : i < ndofs) :
    (l.foldl (mass_step ndofs w phi u rq) (res, jac)).1 i
      = res i + (l.map (fun qp => w qp * u qp * phi i qp)).sum := by
  induction l generalizing res jac with
  | nil => simp
  | cons qp l ih =>
    rw [List.foldl_cons]
    have hstep : mass_step ndofs w phi u rq (res, jac) qp
        = ((mass_step ndofs w phi u rq (res, jac) qp).1,
           (mass_step ndofs w phi u rq (res, jac) qp).2) := rfl
    rw [hstep, ih]
    simp only [mass_step, hi, if_pos, List.map_cons, List.sum_cons]
    ring

theorem mass_loop_jac_true (ndofs : ℕ) (w : ℕ → ℚ) (phi : ℕ → ℕ → ℚ) (u : ℕ → ℚ)
    (l : List ℕ) (res : ℕ → ℚ) (jac : ℕ → ℕ → ℚ) (i j : ℕ) (hi : i < ndofs)
    (hj : j < ndofs) :
    (l.foldl (mass_step ndofs w phi u true) (res, jac)).2 i j
      = jac i j + (l.map (fun qp => w qp * phi i qp * phi j qp)).sum := by
  induction l generalizing res jac with
  | nil => simp
  | cons qp l ih =>
    rw [List.foldl_cons]
    have hstep : mass_step ndofs w phi u true (res, jac) qp
        = ((mass_step ndofs w phi u true (res, jac) qp).1,
           (mass_step ndofs w phi u true (res, jac) qp).2) := rfl
    rw [hstep, ih]
    simp only [mass_step, hi, hj, and_self, if_pos, if_true, List.map_cons, List.sum_cons]
    ring

theorem mass_loop_jac_false (ndofs : ℕ) (w : ℕ → ℚ) (phi : ℕ → ℕ → ℚ) (u : ℕ → ℚ)
    (l : List ℕ) (res : ℕ → ℚ) (jac : ℕ → ℕ → ℚ) :
    (l.foldl (mass_step ndofs w phi u false) (res, jac)).2 = jac := by
  induction l generalizing res jac with
  | nil => rfl
  | cons qp l ih =>
    rw [List.foldl_cons]
    have hstep : mass_step ndofs w phi u false (res, jac) qp
        = ((mass_step ndofs w phi u false (res, jac) qp).1, jac) := rfl
    rw [hstep, ih]

/-- C5: the engine-supplied default mass residual adds the identity-mass
contribution: each residual entry `i` gains the quadrature inner product
`(u, phi_i)`, each Jacobian entry `(i, j)` gains `(phi_i, phi_j)` exactly when
the Jacobian was requested (the Jacobian buffer is untouched otherwise), and
the returned flag is true exactly when the requested Jacobian was computed,
namely it equals `request_jacobian`. -/
theorem C5_default_mass_residual
    (nqp ndofs : ℕ) (w : ℕ → ℚ) (phi : ℕ → ℕ → ℚ) (u : ℕ → ℚ) (rq : Bool)
    (res : ℕ → ℚ) (jac : ℕ → ℕ → ℚ) (i j : ℕ) (hi : i < ndofs) (hj : j < ndofs) :
    (mass_residual_default nqp ndofs w phi u rq res jac).1.1 i
      = res i + qp_inner nqp w u (phi i)
    ∧ (rq = true →
        (mass_residual_default nqp ndofs w phi u rq res jac).1.2 i j
          = jac i j + qp_inner nqp w (phi i) (phi j))
    ∧ (rq = false → (mass_residual_default nqp ndofs w phi u rq res jac).1.2 = jac)
    ∧ (mass_residual_default nqp ndofs w phi u rq res jac).2 = rq := by
  refine ⟨?_, ?_, ?_, rfl⟩
  · exact mass_loop_res ndofs w phi u rq (List.range nqp) res jac i hi
  · intro hrq
    subst hrq
    exact mass_loop_jac_true ndofs w phi u (List.range nqp) res jac i j hi hj
  · intro hrq
    subst hrq
    exact mass_loop_jac_false ndofs w phi u (List.range nqp) res jac

/-- Concrete instantiation of C5: two quadrature points of weight 1/2, one
local degree of freedom with basis value 1, solution value 3 at each point,
with the Jacobian requested. -/
theorem C5_default_mass_residual_witness :
    (mass_residual_default 2 1 (fun _ => 1/2) (fun _ _ => 1) (fun _ => 3) true
        (fun _ => 0) (fun _ _ => 0)).1.1 0
      = (fun _ : ℕ => (0 : ℚ)) 0 + qp_inner 2 (fun _ => 1/2) (fun _ => 3) ((fun _ _ => 1) 0)
    ∧ (mass_residual_default 2 1 (fun _ => 1/2) (fun _ _ => 1) (fun _ => 3) true
          (fun _ => 0) (fun _ _ => 0)).1.2 0 0
        = (fun _ _ : ℕ => (0 : ℚ)) 0 0
          + qp_inner 2 (fun _ => 1/2) ((fun _ _ => 1) 0) ((fun _ _ => 1) 0)
    ∧ (mass_residual_default 2 1 (fun _ => 1/2) (fun _ _ => 1) (fun _ => 3) true
        (fun _ => 0) (fun _ _ => 0)).2 = true :=
  ⟨(C5_default_mass_residual 2 1 (fun _ => 1/2) (fun _ _ => 1) (fun _ => 3) true
      (fun _ => 0) (fun _ _ => 0) 0 0 (by decide) (by decide)).1,
   (C5_default_mass_residual 2 1 (fun _ => 1/2) (fun _ _ => 1) (fun _ => 3) true
      (fun _ => 0) (fun _ _ => 0) 0 0 (by decide) (by decide)).2.1 rfl,
   (C5_default_mass_residual 2 1 (fun _ => 1/2) (fun _ _ => 1) (fun _ => 3) true
      (fun _ => 0) (fun _ _ => 0) 0 0 (by decide) (by decide)).2.2.2⟩

/-- The externally owned global accumulation targets: the global residual
vector and the global Jacobian matrix, indexed by global degree-of-freedom
numbers. -/
@[ext]
structure GlobalState where
  residual : ℕ → ℚ
  jacobian : ℕ → ℕ → ℚ

/-- One element's local contribution mapped to global indices: a list of
(global dof, value) residual entries and ((row, column), value) Jacobian
entries. -/
structure ElemContribution where
  res_entries : List (ℕ × ℚ)
  jac_entries : List ((ℕ × ℕ) × ℚ)

/-- Modelled from the spec: the accumulation step of `FEMSystem::assembly`
(its body is not under `src/`): each global entry selected by the
`get_residual` / `get_jacobian` flags is increased by the sum of the element's
contribution values at that index; no entry is ever replaced or read back. -/
def add_into (get_residual get_jacobian : Bool) (g : GlobalState)
    (c : ElemContribution) : GlobalState :=
  GlobalState.mk
    (if get_residual then
       fun i => g.residual i
         + ((c.res_entries.filter (fun p => p.1 = i)).map (fun p => p.2)).sum
     else g.residual)
    (if get_jacobian then
       fun i j => g.jacobian i j
         + ((c.jac_entries.filter (fun p => p.1 = (i, j))).map (fun p => p.2)).sum
     else g.jacobian)

/-- Modelled from the spec: the element loop of
`FEMSystem::assembly(get_residual, get_jacobian)` in accumulation form —
fold the per-element contributions into the global state in traversal
order. -/
def assembly (get_residual get_jacobian : Bool) (elems : List ElemContribution)
    (g : GlobalState) : GlobalState :=
  elems.foldl (add_into get_residual get_jacobian) g

theorem add_into_swap (gr gj : Bool) (g : GlobalState) (a b : ElemContribution) :
    add_into gr gj (add_into gr gj g a) b = add_into gr gj (add_into gr gj g b) a := by
  cases gr <;> cases gj <;> ext <;> simp [add_into] <;> ring

/-- C6: assembling the element contributions in any permutation of the
traversal order yields the same global residual and Jacobian, and each
accumulation step is purely additive — a selected target entry becomes the
old entry plus the contribution sum, and an unselected target is left
untouched. -/
theorem C6_assembly_order_independent
    (gr gj : Bool) (elems1 elems2 : List ElemContribution) (g : GlobalState)
    (hperm : elems1.Perm elems2) :
    assembly gr gj elems1 g = assembly gr gj elems2 g
    ∧ (∀ (c : ElemContribution) (st : GlobalState) (i : ℕ),
        gr = true →
        (add_into gr gj st c).residual i
          = st.residual i
            + ((c.res_entries.filter (fun p => p.1 = i)).map (fun p => p.2)).sum)
    ∧ (∀ (c : ElemContribution) (st : GlobalState) (i j : ℕ),
        gj = true →
        (add_into gr gj st c).jacobian i j
          = st.jacobian i j
            + ((c.jac_entries.filter (fun p => p.1 = (i, j))).map (fun p => p.2)).sum)
    ∧ (∀ (c : ElemContribution) (st : GlobalState),
        gr = false → (add_into gr gj st c).residual = st.residual)
    ∧ (∀ (c : ElemContribution) (st : GlobalState),
        gj = false → (add_into gr gj st c).jacobian = st.jacobian) := by
  refine ⟨?_, ?_, ?_, ?_, ?_⟩
  · exact hperm.foldl_eq' (fun a _ b _ st => add_into_swap gr gj st a b) g
  · intro c st i hgr
    subst hgr
    simp [add_into]
  · intro c st i j hgj
    subst hgj
    simp [add_into]
  · intro c st hgr
    subst hgr
    simp [add_into]
  · intro c st hgj
    subst hgj
    simp [add_into]

/-- Concrete instantiation of C6: two one-entry contributions to the same
global dof assembled in both orders from a zero global state, with both flags
set. -/
theorem C6_assembly_order_independent_witness :
    assembly true true
        [ElemContribution.mk [(0, 2)] [((0, 0), 5)], ElemContribution.mk [(0, 3)] []]
        (GlobalState.mk (fun _ => 0) (fun _ _ => 0))
      = assembly true true
          [ElemContribution.mk [(0, 3)] [], ElemContribution.mk [(0, 2)] [((0, 0), 5)]]
          (GlobalState.mk (fun _ => 0) (fun _ _ => 0)) :=
  (C6_assembly_order_independent true true
    [ElemContribution.mk [(0, 2)] [((0, 0), 5)], ElemContribution.mk [(0, 3)] []]
    [ElemContribution.mk [(0, 3)] [], ElemContribution.mk [(0, 2)] [((0, 0), 5)]]
    (GlobalState.mk (fun _ => 0) (fun _ _ => 0))
    (List.Perm.swap (ElemContribution.mk [(0, 3)] [])
      (ElemContribution.mk [(0, 2)] [((0, 0), 5)]) [])).1

/-- The registration state of a DifferentiableSystem: one boolean flag per
variable index recording whether the variable was declared time-evolving. -/
@[ext]
structure DiffSystemState where
  is_time_evolving : ℕ → Bool

/-- Modelled from the spec: `FEMSystem::time_evolving(var)` (its body is not
under `src/`; per the header doc the user's init() calls it for variables
behaving like du/dt = F(u)).  It marks exactly the flag of `var`. -/
def time_evolving (s : DiffSystemState) (var : ℕ) : DiffSystemState :=
  DiffSystemState.mk (fun w => if w = var then true else s.is_time_evolving w)

/-- Modelled from the spec: whether mass-residual contributions are requested
for variable `w` — they are exactly when `w` was registered as
time-evolving. -/
def mass_residual_requested (s : DiffSystemState) (w : ℕ) : Bool :=
  s.is_time_evolving w

/-- C7: registering a variable as time-evolving twice leaves the system in
the same state as registering it once, and registering `v` does not change
whether mass-residual contributions are requested for any other variable
`w`. -/
theorem C7_time_evolving_idempotent_and_local (s : DiffSystemState) (v : ℕ) :
    time_evolving (time_evolving s v) v = time_evolving s v
    ∧ ∀ w, w ≠ v →
        mass_residual_requested (time_evolving s v) w = mass_residual_requested s w := by
  constructor
  · ext w
    by_cases hw : w = v <;> simp [time_evolving, hw]
  · intro w hw
    simp [time_evolving, mass_residual_requested, hw]

/-- Concrete instantiation of C7: registering variable 0 twice on a fresh
system, and checking variable 1's mass-residual request is untouched. -/
theorem C7_time_evolving_idempotent_and_local_witness :
    time_evolving (time_evolving (DiffSystemState.mk (fun _ => false)) 0) 0
      = time_evolving (DiffSystemState.mk (fun _ => false)) 0
    ∧ mass_residual_requested (time_evolving (DiffSystemState.mk (fun _ => false)) 0) 1
      = mass_residual_requested (DiffSystemState.mk (fun _ => false)) 1 :=
  ⟨(C7_time_evolving_idempotent_and_local (DiffSystemState.mk (fun _ => false)) 0).1,
   (C7_time_evolving_idempotent_and_local (DiffSystemState.mk (fun _ => false)) 0).2 1
     (by decide)⟩

/-- The system state seen by the postprocessing pass: the global residual and
Jacobian targets left by the last assembly, plus user-owned statistics
storage that the postprocessing callbacks update. -/
structure PostprocessState where
  residual : ℕ → ℚ
  jacobian : ℕ → ℕ → ℚ
  user_data : List ℚ

/-- The body of the postprocessing loop for one element: invoke the user's
element callback on the user-owned data and, when `postprocess_sides` is set,
the side callback for each side of the element. -/
def postprocess_elem_step (postprocess_sides : Bool) (sides_of : ℕ → List ℕ)
    (elem_cb : ℕ → List ℚ → List ℚ) (side_cb : ℕ → ℕ → List ℚ → List ℚ)
    (st : PostprocessState) (e : ℕ) : PostprocessState :=
  let st1 := PostprocessState.mk st.residual st.jacobian (elem_cb e st.user_data)
  if postprocess_sides then
    (sides_of e).foldl (fun st2 sd =>
      PostprocessState.mk st2.residual st2.jacobian (side_cb e sd st2.user_data)) st1
  else st1

/-- Modelled from the spec: `FEMSystem::postprocess()` (its body is not under
`src/`; the header doc says it runs a postprocessing loop over all elements
and, if `postprocess_sides` is true, over all sides).  The user callbacks act
purely for side-effects on the user-owned data; this pass has no
residual/Jacobian buffers and no accumulation. -/
def postprocess (postprocess_sides : Bool) (elems : List ℕ) (sides_of : ℕ → List ℕ)
    (elem_cb : ℕ → List ℚ → List ℚ) (side_cb : ℕ → ℕ → List ℚ → List ℚ)
    (s : PostprocessState) : PostprocessState :=
  elems.foldl (postprocess_elem_step postprocess_sides sides_of elem_cb side_cb) s

theorem postprocess_side_loop_frame (l : List ℕ) (e : ℕ)
    (side_cb : ℕ → ℕ → List ℚ → List ℚ) (st : PostprocessState) :
    (l.foldl (fun st2 sd =>
        PostprocessState.mk st2.residual st2.jacobian (side_cb e sd st2.user_data)) st).residual
      = st.residual
    ∧ (l.foldl (fun st2 sd =>
        PostprocessState.mk st2.residual st2.jacobian (side_cb e sd st2.user_data)) st).jacobian
      = st.jacobian := by
  induction l generalizing st with
  | nil => exact ⟨rfl, rfl⟩
  | cons sd l ih =>
    rw [List.foldl_cons]
    exact ih (PostprocessState.mk st.residual st.jacobian (side_cb e sd st.user_data))

theorem postprocess_elem_step_frame (postprocess_sides : Bool) (sides_of : ℕ → List ℕ)
    (elem_cb : ℕ → List ℚ → List ℚ) (side_cb : ℕ → ℕ → List ℚ → List ℚ)
    (st : PostprocessState) (e : ℕ) :
    (postprocess_elem_step postprocess_sides sides_of elem_cb side_cb st e).residual
      = st.residual
    ∧ (postprocess_elem_step postprocess_sides sides_of elem_cb side_cb st e).jacobian
      = st.jacobian := by
  unfold postprocess_elem_step
  cases postprocess_sides with
  | false => exact ⟨rfl, rfl⟩
  | true =>
    simp only [if_true]
    exact postprocess_side_loop_frame (sides_of e) e side_cb
      (PostprocessState.mk st.residual st.jacobian (elem_cb e st.user_data))

/-- C8: running the postprocessing pass leaves the global residual vector and
the global Jacobian matrix exactly as they were before the call, for every
element list, side structure, pair of user callbacks, and setting of
`postprocess_sides`. -/
theorem C8_postprocess_preserves_globals (postprocess_sides : Bool) (elems : List ℕ)
    (sides_of : ℕ → List ℕ) (elem_cb : ℕ → List ℚ → List ℚ)
    (side_cb : ℕ → ℕ → List ℚ → List ℚ) (s : PostprocessState) :
    (postprocess postprocess_sides elems sides_of elem_cb side_cb s).residual = s.residual
    ∧ (postprocess postprocess_sides elems sides_of elem_cb side_cb s).jacobian
      = s.jacobian := by
  unfold postprocess
  induction elems generalizing s with
  | nil => exact ⟨rfl, rfl⟩
  | cons e elems ih =>
    rw [List.foldl_cons]
    rcases ih (postprocess_elem_step postprocess_sides sides_of elem_cb side_cb s e)
      with ⟨h1, h2⟩
    rcases postprocess_elem_step_frame postprocess_sides sides_of elem_cb side_cb s e
      with ⟨h3, h4⟩
    exact ⟨by rw [h1, h3], by rw [h2, h4]⟩

/-- The data structures of `boundary_info.h`: the map from nodes to boundary
ids, the multimap from elements to (side, id) pairs, and the set of
user-specified ids.  Nodes and elements are identified by their numbers and
the C++ associative containers are modelled as entry lists. -/
structure BoundaryInfo where
  boundary_node_id : List (ℕ × ℤ)
  boundary_side_id : List (ℕ × (ℕ × ℤ))
  boundary_ids : List ℤ

/-- Modelled from the spec: the distinguished constant
`BoundaryInfo::invalid_id` — "the return value if a boundary condition is not
specified"; its defining translation unit is not under `src/`, and only its
role as the default return value matters here. -/
def invalid_id : ℤ := -123

/-- `BoundaryInfo::remove(const Elem*)`, inline in `boundary_info.h`: erase
everything associated with the element from the side multimap
(`_boundary_side_id.erase(elem)` drops every entry with that key). -/
def BoundaryInfo.remove (bi : BoundaryInfo) (elem : ℕ) : BoundaryInfo :=
  BoundaryInfo.mk bi.boundary_node_id
    (bi.boundary_side_id.filter (fun p => p.1 ≠ elem)) bi.boundary_ids

/-- `BoundaryInfo::remove(const Node*)`, inline in `boundary_info.h`: erase
everything associated with the node from the node map. -/
def BoundaryInfo.remove_node (bi : BoundaryInfo) (node : ℕ) : BoundaryInfo :=
  BoundaryInfo.mk (bi.boundary_node_id.filter (fun p => p.1 ≠ node))
    bi.boundary_side_id bi.boundary_ids

/-- Modelled from the spec: `BoundaryInfo::boundary_id(const Node*)` (its
body is not under `src/`; per the header doc it returns the id associated
with the node, and `invalid_id` if the node is not found). -/
def BoundaryInfo.node_boundary_id (bi : BoundaryInfo) (node : ℕ) : ℤ :=
  match bi.boundary_node_id.find? (fun p => p.1 = node) with
  | some p => p.2
  | none => invalid_id

/-- Modelled from the spec: `BoundaryInfo::boundary_id(const Elem*, side)`
(its body is not under `src/`; per the header doc it returns the id
associated with that side of that element, and `invalid_id` if the side does
not have an associated boundary id). -/
def BoundaryInfo.boundary_id (bi : BoundaryInfo) (elem side : ℕ) : ℤ :=
  match bi.boundary_side_id.find? (fun p => p.1 = elem ∧ p.2.1 = side) with
  | some p => p.2.2
  | none => invalid_id

/-- C9: `invalid_id` is the default boundary id — both lookups return it
whenever no entry was registered for the queried node or element side, and
after `remove(elem)` every side of that element reports `invalid_id`. -/
theorem C9_boundary_id_default (bi : BoundaryInfo) (node elem side : ℕ) :
    ((∀ p ∈ bi.boundary_node_id, p.1 ≠ node) →
      BoundaryInfo.node_boundary_id bi node = invalid_id)
    ∧ ((∀ p ∈ bi.boundary_side_id, ¬ (p.1 = elem ∧ p.2.1 = side)) →
        BoundaryInfo.boundary_id bi elem side = invalid_id)
    ∧ (∀ s, BoundaryInfo.boundary_id (BoundaryInfo.remove bi elem) elem s = invalid_id) := by
  refine ⟨?_, ?_, ?_⟩
  · intro h1
    unfold BoundaryInfo.node_boundary_id
    have hnone : bi.boundary_node_id.find? (fun p => p.1 = node) = none := by
      rw [List.find?_eq_none]
      intro x hx
      simpa using h1 x hx
    rw [hnone]
  · intro h2
    unfold BoundaryInfo.boundary_id
    have hnone : bi.boundary_side_id.find? (fun p => p.1 = elem ∧ p.2.1 = side) = none := by
      rw [List.find?_eq_none]
      intro x hx
      simpa using h2 x hx
    rw [hnone]
  · intro s
    unfold BoundaryInfo.boundary_id BoundaryInfo.remove
    have hnone : ((bi.boundary_side_id.filter (fun p => p.1 ≠ elem)).find?
        (fun p => p.1 = elem ∧ p.2.1 = s)) = none := by
      rw [List.find?_eq_none]
      intro x hx
      have hne : x.1 ≠ elem := by simpa using (List.mem_filter.1 hx).2
      simp [hne]
    rw [hnone]

/-- Concrete instantiation of C9: a boundary structure holding node 1 with id
2 and side 0 of element 3 with id 4, queried at the unregistered node 5 and
the unregistered side 1 of element 3, then after removing element 3. -/
theorem C9_boundary_id_default_witness :
    BoundaryInfo.node_boundary_id (BoundaryInfo.mk [(1, 2)] [(3, (0, 4))] [2, 4]) 5
      = invalid_id
    ∧ BoundaryInfo.boundary_id (BoundaryInfo.mk [(1, 2)] [(3, (0, 4))] [2, 4]) 3 1
      = invalid_id
    ∧ BoundaryInfo.boundary_id
        (BoundaryInfo.remove (BoundaryInfo.mk [(1, 2)] [(3, (0, 4))] [2, 4]) 3) 3 0
      = invalid_id :=
  ⟨(C9_boundary_id_default (BoundaryInfo.mk [(1, 2)] [(3, (0, 4))] [2, 4]) 5 3 1).1
     (by decide),
   (C9_boundary_id_default (BoundaryInfo.mk [(1, 2)] [(3, (0, 4))] [2, 4]) 5 3 1).2.1
     (by decide),
   (C9_boundary_id_default (BoundaryInfo.mk [(1, 2)] [(3, (0, 4))] [2, 4]) 5 3 1).2.2 0⟩

/-- Modelled from the spec: the plain StatisticsVector mean over all entries
of the data set (`statistics.h` is not under `src/`). -/
def StatisticsVector.mean (d : List ℚ) : ℚ := d.sum / d.length

/-- Modelled from the spec: the plain StatisticsVector variance over all
entries, with the mean supplied, normalized by N. -/
def StatisticsVector.variance_mean (d : List ℚ) (mean : ℚ) : ℚ :=
  (d.map (fun x => (x - mean) ^ 2)).sum / d.length

/-- Modelled from the spec: the plain StatisticsVector median — sort the data
and take the middle value (the average of the two central values for an even
count, in GSL style). -/
def StatisticsVector.median (d : List ℚ) : ℚ :=
  if d.length = 0 then 0
  else if d.length % 2 = 1 then (d.mergeSort (fun a b => a ≤ b)).getD (d.length / 2) 0
  else ((d.mergeSort (fun a b => a ≤ b)).getD (d.length / 2 - 1) 0
        + (d.mergeSort (fun a b => a ≤ b)).getD (d.length / 2) 0) / 2

/-- Modelled from the spec: the plain StatisticsVector cut_below — the
indices of every member of the data set below the cutoff. -/
def StatisticsVector.cut_below (d : List ℚ) (cut : ℚ) : List ℕ :=
  (List.range d.length).filter (fun i => d.getD i 0 < cut)

/-- Modelled from the spec: the plain StatisticsVector cut_above — the
indices of every member of the data set above the cutoff. -/
def StatisticsVector.cut_above (d : List ℚ) (cut : ℚ) : List ℕ :=
  (List.range d.length).filter (fun i => cut < d.getD i 0)

/-- One step of the ErrorVector minimum loop: zero entries are skipped,
the first nonzero entry seeds the minimum, later nonzero entries lower it. -/
def ev_min_step (acc : Option ℚ) (x : ℚ) : Option ℚ :=
  if x ≠ 0 then
    match acc with
    | none => some x
    | some m => some (min m x)
  else acc

/-- Modelled from the spec: `ErrorVector::minimum()` (its body is not under
`src/`; per the header doc it returns the minimum nonzero value in the data
set).  A single pass over the data ignoring zero entries; `none` reports that
no nonzero entry exists. -/
def ErrorVector.minimum (d : List ℚ) : Option ℚ := d.foldl ev_min_step none

/-- One step of the ErrorVector accumulation loops: count the entry and add
`g` of it, unless the entry is a zero pad. -/
def ev_sum_step (g : ℚ → ℚ) (acc : ℕ × ℚ) (x : ℚ) : ℕ × ℚ :=
  if x ≠ 0 then (acc.1 + 1, acc.2 + g x) else acc

/-- Modelled from the spec: `ErrorVector::mean()` (its body is not under
`src/`; per the header doc it returns the mean of the data set ignoring zero
values).  A single pass accumulating the count and sum of the nonzero
entries. -/
def ErrorVector.mean (d : List ℚ) : ℚ :=
  (d.foldl (ev_sum_step id) (0, 0)).2 / ((d.foldl (ev_sum_step id) (0, 0)).1 : ℚ)

/-- Modelled from the spec: `ErrorVector::variance(const Real mean)` (its
body is not under `src/`; per the header doc it computes the variance
ignoring zero values, normalized by N). -/
def ErrorVector.variance_mean (d : List ℚ) (mean : ℚ) : ℚ :=
  (d.foldl (ev_sum_step (fun x => (x - mean) ^ 2)) (0, 0)).2
    / ((d.foldl (ev_sum_step (fun x => (x - mean) ^ 2)) (0, 0)).1 : ℚ)

/-- `ErrorVector::variance()`, inline in `error_vector.h`: delegates to the
mean-supplied variance at the (zero-ignoring) mean. -/
def ErrorVector.variance (d : List ℚ) : ℚ :=
  ErrorVector.variance_mean d (ErrorVector.mean d)

/-- Modelled from the spec: `ErrorVector::median()` (its body is not under
`src/`; per the header doc it is the middle value of the data set ignoring
zero values).  Copies the nonzero entries in one pass, then takes the plain
median of the copy. -/
def ErrorVector.median (d : List ℚ) : ℚ :=
  StatisticsVector.median (d.foldl (fun acc x => if x ≠ 0 then acc ++ [x] else acc) [])

/-- Modelled from the spec: `ErrorVector::cut_below(cut)` (its body is not
under `src/`; per the header doc it returns the indices of every member of
the data set below the cutoff, ignoring zero values). -/
def ErrorVector.cut_below (d : List ℚ) (cut : ℚ) : List ℕ :=
  (List.range d.length).foldl
    (fun acc i => if d.getD i 0 ≠ 0 ∧ d.getD i 0 < cut then acc ++ [i] else acc) []

/-- Modelled from the spec: `ErrorVector::cut_above(cut)` (its body is not
under `src/`; per the header doc it returns the indices of every member of
the data set above the cutoff, ignoring zero values). -/
def ErrorVector.cut_above (d : List ℚ) (cut : ℚ) : List ℕ :=
  (List.range d.length).foldl
    (fun acc i => if d.getD i 0 ≠ 0 ∧ cut < d.getD i 0 then acc ++ [i] else acc) []

theorem foldl_collect {α : Type} (p : α → Prop) [DecidablePred p] (l : List α)
    (acc : List α) :
    l.foldl (fun a x => if p x then a ++ [x] else a) acc
      = acc ++ l.filter (fun x => decide (p x)) := by
  induction l generalizing acc with
  | nil => simp
  | cons x l ih =>
    rw [List.foldl_cons]
    by_cases hx : p x
    · rw [if_pos hx, ih]
      simp [hx]
    · rw [if_neg hx, ih]
      simp [hx]

theorem ev_min_fold_some (l : List ℚ) (m : ℚ) :
    l.foldl ev_min_step (some m)
      = some ((l.filter (fun x => x ≠ 0)).foldl min m) := by
  induction l generalizing m with
  | nil => rfl
  | cons x l ih =>
    rw [List.foldl_cons]
    by_cases hx : x = 0
    · rw [show ev_min_step (some m) x = some m by simp [ev_min_step, hx]]
      rw [ih]
      rw [List.filter_cons_of_neg (by simp [hx])]
    · rw [show ev_min_step (some m) x = some (min m x) by simp [ev_min_step, hx]]
      rw [ih]
      rw [List.filter_cons_of_pos (by simp [hx]), List.foldl_cons]

theorem ev_min_fold_none (l : List ℚ) :
    l.foldl ev_min_step none = (l.filter (fun x => x ≠ 0)).min? := by
  induction l with
  | nil => rfl
  | cons x l ih =>
    rw [List.foldl_cons]
    by_cases hx : x = 0
    · rw [show ev_min_step none x = none by simp [ev_min_step, hx]]
      rw [ih, List.filter_cons_of_neg (by simp [hx])]
    · rw [show ev_min_step none x = some x by simp [ev_min_step, hx]]
      rw [ev_min_fold_some, List.filter_cons_of_pos (by simp [hx]), List.min?_cons']

theorem ev_sum_fold (g : ℚ → ℚ) (l : List ℚ) (c : ℕ) (s : ℚ) :
    l.foldl (ev_sum_step g) (c, s)
      = (c + (l.filter (fun x => x ≠ 0)).length,
         s + ((l.filter (fun x => x ≠ 0)).map g).sum) := by
  induction l generalizing c s with
  | nil => simp
  | cons x l ih =>
    rw [List.foldl_cons]
    by_cases hx : x = 0
    · rw [show ev_sum_step g (c, s) x = (c, s) by simp [ev_sum_step, hx]]
      rw [ih, List.filter_cons_of_neg (by simp [hx])]
    · rw [show ev_sum_step g (c, s) x = (c + 1, s + g x) by simp [ev_sum_step, hx]]
      rw [ih, List.filter_cons_of_pos (by simp [hx])]
      simp only [List.length_cons, List.map_cons, List.sum_cons, Prod.mk.injEq]
      exact ⟨by omega, by ring⟩

/-- C10: every ErrorVector statistic ignores the zero entries padded in for
inactive elements: minimum is the minimum of the nonzero values, mean and
variance are the plain statistics of the nonzero sub-data, the median is the
plain median of the nonzero sub-data, and cut_below/cut_above index exactly
the nonzero members of the plain cut sets. -/
theorem C10_error_vector_ignores_zeros (d : List ℚ) (cut m : ℚ) :
    ErrorVector.minimum d = (d.filter (fun x => x ≠ 0)).min?
    ∧ ErrorVector.mean d = StatisticsVector.mean (d.filter (fun x => x ≠ 0))
    ∧ ErrorVector.variance_mean d m
        = StatisticsVector.variance_mean (d.filter (fun x => x ≠ 0)) m
    ∧ ErrorVector.variance d
        = StatisticsVector.variance_mean (d.filter (fun x => x ≠ 0))
            (StatisticsVector.mean (d.filter (fun x => x ≠ 0)))
    ∧ ErrorVector.median d = StatisticsVector.median (d.filter (fun x => x ≠ 0))
    ∧ ErrorVector.cut_below d cut
        = (StatisticsVector.cut_below d cut).filter (fun i => d.getD i 0 ≠ 0)
    ∧ ErrorVector.cut_above d cut
        = (StatisticsVector.cut_above d cut).filter (fun i => d.getD i 0 ≠ 0) := by
  have hmean : ErrorVector.mean d = StatisticsVector.mean (d.filter (fun x => x ≠ 0)) := by
    unfold ErrorVector.mean StatisticsVector.mean
    rw [ev_sum_fold]
    simp [List.map_id]
  have hvarm : ∀ mu : ℚ, ErrorVector.variance_mean d mu
      = StatisticsVector.variance_mean (d.filter (fun x => x ≠ 0)) mu := by
    intro mu
    unfold ErrorVector.variance_mean StatisticsVector.variance_mean
    rw [ev_sum_fold]
    simp
  refine ⟨ev_min_fold_none d, hmean, hvarm m, ?_, ?_, ?_, ?_⟩
  · unfold ErrorVector.variance
    rw [hvarm, hmean]
  · unfold ErrorVector.median
    rw [foldl_collect (fun x : ℚ => x ≠ 0) d []]
    rw [List.nil_append]
  · unfold ErrorVector.cut_below StatisticsVector.cut_below
    rw [foldl_collect (fun i => d.getD i 0 ≠ 0 ∧ d.getD i 0 < cut) (List.range d.length) []]
    rw [List.nil_append, List.filter_filter]
    simp only [Bool.decide_and]
  · unfold ErrorVector.cut_above StatisticsVector.cut_above
    rw [foldl_collect (fun i => d.getD i 0 ≠ 0 ∧ cut < d.getD i 0) (List.range d.length) []]
    rw [List.nil_append, List.filter_filter]
    simp only [Bool.decide_and]
